import Mathlib

/-!
Verification development for a stock-market ETL pipeline
(`stock_etl_pipeline.py`): extraction, transformation (schema validation,
type coercion, derived-field computation), loading into a uniquely-keyed
SQLite table, and the per-symbol orchestration loop.

The embedding models:
- raw provider payloads as association lists from date strings to raw field
  values (numeric strings as the rationals they denote, junk otherwise);
- `transform_stock_data` including the pydantic validation path, the
  no-validation path, pandas numeric coercion (`errors="coerce"`), the
  derived `daily_change_percentage` (with IEEE division-by-zero behaviour:
  `x/0` is `±inf` for `x ≠ 0` and `NaN` for `x = 0`), date parsing (which
  raises), and the final `dropna` filter — exceptions are modelled by
  `Except` and the function's catch-all `except` clause by mapping every
  error to `none`;
- `load_to_database` including `INSERT OR IGNORE` semantics (a duplicate
  `(symbol, date)` key or a NOT NULL violation leaves the table unchanged)
  and the `conn.total_changes` counter the code uses to classify rows as
  inserted vs skipped (cumulative over the connection, reset per call since
  the code opens a fresh connection each call);
- `run_etl_pipeline` as an event-trace semantics over an environment that
  fixes the outcome of each symbol's extraction.
-/

namespace StockETL

/-- A raw JSON scalar field as delivered by the provider: a numeric string
(modelled by the rational it denotes) or non-numeric junk. -/
inductive RawVal where
  | num (q : ℚ)
  | junk
  deriving DecidableEq

/-- Float coercion of an optional raw field (pydantic `float` / pandas
`pd.to_numeric(errors="coerce")`): `none` models a missing field, an
unparseable value, or NaN. -/
def floatCoerce : Option RawVal → Option ℚ
  | some (.num q) => some q
  | _ => none

/-- Integer coercion of an optional raw field by the pydantic `int` field
type: succeeds only on an integral numeric value; an absent field, junk or
a non-integral number is a `ValidationError`. (This also coincides with
the value the `pd.to_numeric(errors="coerce").astype("Int64")` column pair
assigns to a cell on which `astype` does not raise: integral → the
integer, NaN from junk or a missing cell → the NA marker; the raising case
is guarded separately, see `nonIntegralNumeric`.) -/
def intCoerce : Option RawVal → Option ℤ
  | some (.num q) => if q.den = 1 then some q.num else none
  | _ => none

/-- The cell condition on which `astype("Int64")` raises `TypeError`: the
cell survives `pd.to_numeric(errors="coerce")` as a finite float (numeric)
but cannot be safely cast to an integer (non-integral). NaN cells — junk
strings after coercion, or cells of an absent field — do not raise; they
become the NA marker. -/
def nonIntegralNumeric (v : Option RawVal) : Bool :=
  (floatCoerce v).isSome && !(intCoerce v).isSome

/-- One entry of the `"Time Series (Daily)"` mapping: the five
provider-labelled fields (`"1. open"` … `"5. volume"`); `none` models an
absent field. -/
structure RawEntry where
  rawOpen : Option RawVal
  rawHigh : Option RawVal
  rawLow : Option RawVal
  rawClose : Option RawVal
  rawVolume : Option RawVal
  deriving DecidableEq

/-- A raw API response for one symbol. `timeSeries = none` models a payload
without the `"Time Series (Daily)"` key; otherwise the time series is an
ordered association list from date strings to entries (Python dicts
preserve insertion order). -/
structure RawPayload where
  timeSeries : Option (List (String × RawEntry))
  deriving DecidableEq

/-- A value of the REAL `daily_change_percentage` column as SQLite ends up
storing it: `null` (a NaN float is bound as NULL by the sqlite3 driver),
positive or negative infinity, or a finite rational. -/
inductive DVal where
  | null
  | posInf
  | negInf
  | num (q : ℚ)
  deriving DecidableEq

/-- Round the ratio `n / d` (with `d ≠ 0`) to the nearest integer, ties to
even — the rounding used by `pandas.Series.round` (numpy / IEEE
round-half-even, which is also Python's built-in `round`). Computed on the
numerator and denominator so the kernel can evaluate it. -/
def roundHalfEvenRatio (n d : ℤ) : ℤ :=
  let n2 := if d < 0 then -n else n
  let d2 := if d < 0 then -d else d
  let f := n2.fdiv d2
  let r := n2 - f * d2
  if 2 * r < d2 then f
  else if d2 < 2 * r then f + 1
  else if f % 2 = 0 then f else f + 1

/-- Pandas evaluation of `((close - open) / open) * 100`, rounded to 2
decimal places (`.round(2)`), under float semantics: if either operand is NaN the
result is NaN (`null`); if `open = 0` the division yields `+inf`, `-inf`
or `NaN` according to the sign of the numerator (`close`'s sign is the
sign of its numerator). For `open = on/od` and `close = cn/cd` the exact
value `(close - open)/open * 100` equals `100 * (cn*od - on*cd) / (cd*on)`,
so its round to 2 places is `roundHalfEvenRatio (10000*(cn*od - on*cd))
(cd*on)` hundredths. -/
def dailyChangePct (o c : Option ℚ) : DVal :=
  match o, c with
  | some ov, some cv =>
    if ov = 0 then
      if 0 < cv.num then .posInf else if cv.num < 0 then .negInf else .null
    else
      .num (mkRat
        (roundHalfEvenRatio (10000 * (cv.num * (ov.den : ℤ) - ov.num * (cv.den : ℤ)))
          ((cv.den : ℤ) * ov.num)) 100)
  | _, _ => .null

/-- One transformed row of the DataFrame handed to the loader. Price and
volume cells are `Option`s (`none` = NaN/NA after coercion). -/
structure DailyRecord where
  symbol : String
  date : String
  openPrice : Option ℚ
  highPrice : Option ℚ
  lowPrice : Option ℚ
  closePrice : Option ℚ
  volume : Option ℤ
  dailyChangePercentage : DVal
  extractionTimestamp : String
  deriving DecidableEq

/-- The pydantic `StockDailyData` check for one entry: all four price
fields coerce to float and the volume field coerces to int (`date: str`
accepts any string). -/
def validates (e : RawEntry) : Bool :=
  (floatCoerce e.rawOpen).isSome && (floatCoerce e.rawHigh).isSome &&
  (floatCoerce e.rawLow).isSome && (floatCoerce e.rawClose).isSome &&
  (intCoerce e.rawVolume).isSome

/-- The four price fields of an entry are numeric. -/
def pricesNumeric (e : RawEntry) : Bool :=
  (floatCoerce e.rawOpen).isSome && (floatCoerce e.rawHigh).isSome &&
  (floatCoerce e.rawLow).isSome && (floatCoerce e.rawClose).isSome

/-- Modelled library capability (`pd.to_datetime`, which raises on an
unparseable date): parsing succeeds exactly on an ISO `YYYY-MM-DD` shape. -/
def dateParses (s : String) : Bool :=
  match s.toList with
  | [a, b, c, d, e, f, g, h, i, j] =>
    a.isDigit && b.isDigit && c.isDigit && d.isDigit && e == '-' &&
    f.isDigit && g.isDigit && h == '-' && i.isDigit && j.isDigit
  | _ => false

/-- Build one DataFrame row from a time-series entry: coerce every field,
compute the derived percentage, stamp symbol and the shared extraction
timestamp. -/
def mkRecord (symbol ts date : String) (e : RawEntry) : DailyRecord :=
  { symbol := symbol
    date := date
    openPrice := floatCoerce e.rawOpen
    highPrice := floatCoerce e.rawHigh
    lowPrice := floatCoerce e.rawLow
    closePrice := floatCoerce e.rawClose
    volume := intCoerce e.rawVolume
    dailyChangePercentage := dailyChangePct (floatCoerce e.rawOpen) (floatCoerce e.rawClose)
    extractionTimestamp := ts }

/-- The `dropna(subset=["open","high","low","close"])` condition: all four
price cells are non-null. -/
def pricesPresent (r : DailyRecord) : Bool :=
  r.openPrice.isSome && r.highPrice.isSome && r.lowPrice.isSome && r.closePrice.isSome

/-- An entry's field slots in provider-label order
(`"1. open"` … `"5. volume"`), indexed 0–4. -/
def slot : ℕ → RawEntry → Option RawVal
  | 0, e => e.rawOpen
  | 1, e => e.rawHigh
  | 2, e => e.rawLow
  | 3, e => e.rawClose
  | 4, e => e.rawVolume
  | _, _ => none

/-- The field labels one entry's JSON object carries, in provider order
(the provider emits the five labels in their numbered order, so an entry's
keys are a subsequence of the canonical five). -/
def entryFields (e : RawEntry) : List ℕ :=
  [0, 1, 2, 3, 4].filter (fun i => (slot i e).isSome)

/-- The column list `pd.DataFrame.from_dict(..., orient="index")` infers
for the no-validation path: the union of the entries' field labels in
first-seen order (each entry contributes its labels in provider order;
pandas preserves first-appearance order across the row dicts). -/
def presentCols (entries : List (String × RawEntry)) : List ℕ :=
  entries.foldl (fun acc p => acc ++ (entryFields p.2).filter (fun i => !acc.contains i)) []

/-- One row of the no-validation path after the positional rename
`df.columns = ["date","open","high","low","close","volume"]`: the name at
position `k` is assigned to the `k`-th inferred column, so the labelled
field reads whatever field sits at that union position (when `cols` is not
the canonical `[0,1,2,3,4]`, the real frame's data is silently mislabelled
and the model reads the same mislabelled cells). Coercion, the derived
column and the timestamp then apply to the labelled cells. -/
def recordPositional (cols : List ℕ) (symbol ts date : String) (e : RawEntry) : DailyRecord :=
  { symbol := symbol
    date := date
    openPrice := floatCoerce (slot (cols.getD 0 0) e)
    highPrice := floatCoerce (slot (cols.getD 1 0) e)
    lowPrice := floatCoerce (slot (cols.getD 2 0) e)
    closePrice := floatCoerce (slot (cols.getD 3 0) e)
    volume := intCoerce (slot (cols.getD 4 0) e)
    dailyChangePercentage :=
      dailyChangePct (floatCoerce (slot (cols.getD 0 0) e)) (floatCoerce (slot (cols.getD 3 0) e))
    extractionTimestamp := ts }

/-- A Python exception escaping a transformation step. -/
inductive PyErr where
  | valueError
  | typeError
  deriving DecidableEq

/-- The body of `transform_stock_data` with its internal exceptions made
explicit (everything inside the function's `try`), in the code's order:
- missing `"Time Series (Daily)"` key → returns `None` (no exception);
- validation path: entries failing pydantic are dropped one by one; if no
  entry validates, returns `None`; then `pd.to_datetime` raises
  `ValueError` on any unparseable date, and `astype("Int64")` raises
  `TypeError` on any non-integral numeric volume (never for validated
  entries, whose volumes are already ints — the guard is kept because the
  coercion lines run in both paths);
- no-validation path: `df.columns = [6 names]` raises `ValueError` unless
  the inferred frame has exactly 5 columns (one per field label present in
  some entry; an empty time series gives a 1-column frame); then
  `pd.to_datetime` raises on any unparseable date, and `astype("Int64")`
  raises `TypeError` on any non-integral numeric cell in the
  volume-labelled column;
- otherwise: build the rows (positionally labelled in the no-validation
  path), and apply the final `dropna` filter. -/
def transformExc (raw_data : RawPayload) (symbol : String) (validate : Bool) (ts : String) :
    Except PyErr (Option (List DailyRecord)) :=
  match raw_data.timeSeries with
  | none => Except.ok none
  | some entries =>
    if validate then
      let cands := entries.filter (fun p => validates p.2)
      if cands.isEmpty then Except.ok none
      else if cands.any (fun p => !dateParses p.1) then Except.error PyErr.valueError
      else if cands.any (fun p => nonIntegralNumeric p.2.rawVolume) then
        Except.error PyErr.typeError
      else Except.ok (some ((cands.map (fun p => mkRecord symbol ts p.1 p.2)).filter
        pricesPresent))
    else
      if (presentCols entries).length ≠ 5 then Except.error PyErr.valueError
      else if entries.any (fun p => !dateParses p.1) then Except.error PyErr.valueError
      else if entries.any
          (fun p => nonIntegralNumeric (slot ((presentCols entries).getD 4 0) p.2)) then
        Except.error PyErr.typeError
      else Except.ok (some ((entries.map
        (fun p => recordPositional (presentCols entries) symbol ts p.1 p.2)).filter
          pricesPresent))

/-- The public `transform_stock_data`. Its `try`/`except`
catches every internal exception and converts it to the failure value
`None`. The wall-clock timestamp captured once per call is passed as
`ts`. -/
def transform_stock_data (raw_data : RawPayload) (symbol : String) (validate : Bool)
    (ts : String) : Option (List DailyRecord) :=
  match transformExc raw_data symbol validate ts with
  | Except.ok r => r
  | Except.error _ => none

/-- One row of the `stock_daily_data` table. The NOT NULL price columns are
plain rationals (the schema rejects nulls there); `volume` and
`daily_change_percentage` are nullable. The autoincrement surrogate id is
left implicit (a row's position in the list). -/
structure StoredRow where
  symbol : String
  date : String
  open_price : ℚ
  high_price : ℚ
  low_price : ℚ
  close_price : ℚ
  volume : Option ℤ
  daily_change_percentage : DVal
  extraction_timestamp : String
  deriving DecidableEq

/-- The `(symbol, date)` key of a stored row. -/
def keyOf (row : StoredRow) : String × String := (row.symbol, row.date)

/-- Whether the table already holds a row with the given key
(the `UNIQUE(symbol, date)` constraint's conflict test). -/
def hasKey (table : List StoredRow) (s d : String) : Bool :=
  table.any (fun row => row.symbol == s && row.date == d)

/-- The stored row a fully-priced record maps to (only used when all four
prices are present; `getD 0` is then exact). -/
def rowOf (r : DailyRecord) : StoredRow :=
  { symbol := r.symbol
    date := r.date
    open_price := r.openPrice.getD 0
    high_price := r.highPrice.getD 0
    low_price := r.lowPrice.getD 0
    close_price := r.closePrice.getD 0
    volume := r.volume
    daily_change_percentage := r.dailyChangePercentage
    extraction_timestamp := r.extractionTimestamp }

/-- One `INSERT OR IGNORE` of one record: any constraint violation — a NOT NULL
price column or a duplicate `(symbol, date)` key — silently leaves the
table unchanged. Returns the new table and whether a row was created
(the statement's contribution to `conn.total_changes`). -/
def insertOrIgnore (table : List StoredRow) (r : DailyRecord) : List StoredRow × Bool :=
  if pricesPresent r then
    if hasKey table r.symbol r.date then (table, false)
    else (table ++ [rowOf r], true)
  else (table, false)

/-- Result of one `load_to_database` call: the table after the call and the
`inserted`/`skipped` counts the call logs. -/
structure LoadResult where
  table : List StoredRow
  inserted : ℕ
  skipped : ℕ
  deriving DecidableEq

/-- The row-at-a-time insert loop. `totalChanges` models
`conn.total_changes`: cumulative rows changed on this connection; the code
counts a row as inserted iff `total_changes > 0` *after* its statement. -/
def loadLoop (table : List StoredRow) (totalChanges inserted skipped : ℕ) :
    List DailyRecord → LoadResult
  | [] => ⟨table, inserted, skipped⟩
  | r :: rs =>
    let step := insertOrIgnore table r
    let tc := totalChanges + (if step.2 then 1 else 0)
    if 0 < tc then loadLoop step.1 tc (inserted + 1) skipped rs
    else loadLoop step.1 tc inserted (skipped + 1) rs

/-- The public `load_to_database`: a fresh connection per call
(`total_changes` starts at 0); a `None`/empty input returns immediately
having touched nothing. -/
def load_to_database (df : List DailyRecord) (table : List StoredRow) : LoadResult :=
  if df.isEmpty then ⟨table, 0, 0⟩ else loadLoop table 0 0 0 df

/-- The table evolution of a load, without the counters. -/
def insertAll (table : List StoredRow) : List DailyRecord → List StoredRow
  | [] => table
  | r :: rs => insertAll (insertOrIgnore table r).1 rs

/-- One pipeline run's successive loads (one record batch per symbol that
reached the Load stage), threaded through the shared table. -/
def runBatch (dfs : List (List DailyRecord)) (table : List StoredRow) : List StoredRow :=
  match dfs with
  | [] => table
  | df :: rest => runBatch rest (load_to_database df table).table

/-- All stored keys are distinct — the `UNIQUE(symbol, date)` invariant. -/
def keysNodup (table : List StoredRow) : Prop := (table.map keyOf).Nodup

/-- Two records that agree on everything the insert conflict test reads:
key and presence of the four prices (a re-extraction of the same provider
response differs only in the extraction timestamp, which the test never
reads). -/
def recKeyEq (r r2 : DailyRecord) : Prop :=
  r.symbol = r2.symbol ∧ r.date = r2.date ∧
  r.openPrice.isSome = r2.openPrice.isSome ∧ r.highPrice.isSome = r2.highPrice.isSome ∧
  r.lowPrice.isSome = r2.lowPrice.isSome ∧ r.closePrice.isSome = r2.closePrice.isSome

/-- Outcome of `extract_stock_data` for one symbol: a payload, `None`
(domain error / rate-limit note / transport or decode failure), or an
exception escaping the function (e.g. an `OSError` from the raw-archive
write, which its `except` clauses do not catch). -/
inductive ExtractOutcome where
  | success (payload : RawPayload)
  | failure
  | raised
  deriving DecidableEq

/-- The environment a pipeline run executes against: the outcome of each
symbol's extraction and the wall clock at each symbol's transform. -/
structure Env where
  extract : String → ExtractOutcome
  now : String → String

/-- Observable events of a pipeline run. -/
inductive Ev where
  | extractCall (symbol : String)
  | transformCall (symbol : String)
  | loadCall (symbol : String)
  | sleepCall
  deriving DecidableEq

/-- The per-symbol body of `run_etl_pipeline`'s loop, as the event trace it
emits. An extraction exception is caught by the loop's `except` and the
loop continues; a `None` payload or a `None`/empty DataFrame hits a
`continue`. `time.sleep(12)` runs only after a completed load (every
`continue` path bypasses it); `load_to_database` catches its own
exceptions, so control always reaches the sleep after it. -/
def processSymbol (env : Env) (symbol : String) : List Ev :=
  match env.extract symbol with
  | .raised => [.extractCall symbol]
  | .failure => [.extractCall symbol]
  | .success raw =>
    match transform_stock_data raw symbol true (env.now symbol) with
    | none => [.extractCall symbol, .transformCall symbol]
    | some [] => [.extractCall symbol, .transformCall symbol]
    | some (_ :: _) => [.extractCall symbol, .transformCall symbol, .loadCall symbol, .sleepCall]

/-- The batch loop `run_etl_pipeline`: process every configured symbol in
order. -/
def run_etl_pipeline (env : Env) (symbols : List String) : List Ev :=
  match symbols with
  | [] => []
  | s :: rest => processSymbol env s ++ run_etl_pipeline env rest

/-- A symbol's iteration completes all three stages (nonempty transform
output reaching the loader). -/
def symbolSucceeds (env : Env) (s : String) : Prop :=
  ∃ raw recs, env.extract s = .success raw ∧
    transform_stock_data raw s true (env.now s) = some recs ∧ recs ≠ []

/-! ### Concrete inputs used by counterexamples and witnesses -/

/-- A fixed extraction timestamp. -/
def ts0 : String := "2024-01-05 18:00:00"

/-- A fully valid time-series entry (open 100, close 105). -/
def goodEntry : RawEntry :=
  ⟨some (.num 100), some (.num 110), some (.num 95), some (.num 105), some (.num 1000)⟩

/-- A one-entry payload of valid data. -/
def goodPayload : RawPayload := ⟨some [("2024-01-05", goodEntry)]⟩

/-- The record `goodPayload` transforms to. -/
def goodRec : DailyRecord :=
  ⟨"AAPL", "2024-01-05", some 100, some 110, some 95, some 105, some 1000, .num 5, ts0⟩

/-- A valid entry whose open price is zero (close 105). -/
def zeroOpenEntry : RawEntry :=
  ⟨some (.num 0), some (.num 105), some (.num 0), some (.num 105), some (.num 1000)⟩

/-- A one-entry payload whose single entry has a zero open price. -/
def zeroOpenPayload : RawPayload := ⟨some [("2024-01-05", zeroOpenEntry)]⟩

/-- An entry with valid prices but a non-numeric volume field. -/
def badVolEntry : RawEntry :=
  ⟨some (.num 100), some (.num 110), some (.num 95), some (.num 105), some .junk⟩

/-- A one-entry payload whose single entry has an uncoercible volume. -/
def badVolPayload : RawPayload := ⟨some [("2024-01-05", badVolEntry)]⟩

/-- A payload whose single (otherwise valid) entry is keyed by an
unparseable date string. -/
def badDatePayload : RawPayload := ⟨some [("not-a-date", goodEntry)]⟩

/-- An entry with a non-numeric open price. -/
def badPriceEntry : RawEntry :=
  ⟨some .junk, some (.num 110), some (.num 95), some (.num 105), some (.num 1000)⟩

/-- Ten time-series entries: eight fully valid and two whose price fields
are non-numeric. -/
def entries10 : List (String × RawEntry) :=
  [("2024-01-01", goodEntry), ("2024-01-02", goodEntry), ("2024-01-03", goodEntry),
   ("2024-01-04", goodEntry), ("2024-01-05", goodEntry), ("2024-01-06", goodEntry),
   ("2024-01-07", goodEntry), ("2024-01-08", goodEntry),
   ("2024-01-09", badPriceEntry), ("2024-01-10", badPriceEntry)]

/-- A ten-entry payload: eight fully valid entries and two whose price
fields are non-numeric. -/
def payload10 : RawPayload := ⟨some entries10⟩

/-- A row already present in the table. -/
def rowOld : StoredRow :=
  ⟨"AAPL", "2024-01-01", 100, 110, 95, 105, some 1000, .num 5, "2024-01-01 18:00:00"⟩

/-- A record whose key collides with `rowOld`. -/
def recDup : DailyRecord :=
  ⟨"AAPL", "2024-01-01", some 100, some 110, some 95, some 105, some 1000, .num 5, ts0⟩

/-- A record with a fresh key. -/
def recNew : DailyRecord :=
  ⟨"AAPL", "2024-01-02", some 101, some 111, some 96, some 106, some 1200, .num 5, ts0⟩

/-- The record `recNew` as a later run would rebuild it: identical
provider data, a different extraction timestamp. -/
def recNew2 : DailyRecord :=
  ⟨"AAPL", "2024-01-02", some 101, some 111, some 96, some 106, some 1200, .num 5,
   "2024-01-06 18:00:00"⟩

/-- An environment in which every extraction fails (returns `None`). -/
def envFail : Env := ⟨fun _ => .failure, fun _ => ts0⟩

/-- An environment in which every extraction succeeds with `goodPayload`. -/
def envOk : Env := ⟨fun _ => .success goodPayload, fun _ => ts0⟩

/-! ### Lemmas about the insert layer -/

theorem insertOrIgnore_snd (t : List StoredRow) (r : DailyRecord) :
    (insertOrIgnore t r).2 = (pricesPresent r && !hasKey t r.symbol r.date) := by
  unfold insertOrIgnore
  cases hp : pricesPresent r <;> cases hk : hasKey t r.symbol r.date <;> simp [hp, hk]

theorem insertOrIgnore_fst (t : List StoredRow) (r : DailyRecord) :
    (insertOrIgnore t r).1 =
      if pricesPresent r && !hasKey t r.symbol r.date then t ++ [rowOf r] else t := by
  unfold insertOrIgnore
  cases hp : pricesPresent r <;> cases hk : hasKey t r.symbol r.date <;> simp [hp, hk]

theorem insertOrIgnore_fst_of_not_changed {t : List StoredRow} {r : DailyRecord}
    (h : (insertOrIgnore t r).2 = false) : (insertOrIgnore t r).1 = t := by
  rw [insertOrIgnore_snd] at h
  rw [insertOrIgnore_fst, h, if_neg]
  simp

theorem insertOrIgnore_fst_append (t : List StoredRow) (r : DailyRecord) :
    ∃ ext, (insertOrIgnore t r).1 = t ++ ext := by
  rw [insertOrIgnore_fst]
  by_cases h : (pricesPresent r && !hasKey t r.symbol r.date) = true
  · exact ⟨[rowOf r], by rw [if_pos h]⟩
  · exact ⟨[], by rw [if_neg h, List.append_nil]⟩

theorem hasKey_append {t : List StoredRow} {s d : String} (ext : List StoredRow)
    (h : hasKey t s d = true) : hasKey (t ++ ext) s d = true := by
  simp only [hasKey, List.any_append, Bool.or_eq_true]
  exact Or.inl h

theorem not_changed_append {t : List StoredRow} {r : DailyRecord}
    (h : (insertOrIgnore t r).2 = false) (ext : List StoredRow) :
    (insertOrIgnore (t ++ ext) r).2 = false := by
  rw [insertOrIgnore_snd] at h ⊢
  rcases Bool.and_eq_false_iff.mp h with hp | hk
  · simp [hp]
  · have : hasKey t r.symbol r.date = true := by
      cases hcase : hasKey t r.symbol r.date
      · rw [hcase] at hk; simp at hk
      · rfl
    simp [hasKey_append ext this]

theorem insertOrIgnore_self_not_changed (t : List StoredRow) (r : DailyRecord) :
    (insertOrIgnore ((insertOrIgnore t r).1) r).2 = false := by
  rw [insertOrIgnore_fst, insertOrIgnore_snd]
  by_cases hp : pricesPresent r = true
  · by_cases hk : hasKey t r.symbol r.date = true
    · simp [hp, hk]
    · have hrow : hasKey (t ++ [rowOf r]) r.symbol r.date = true := by
        simp [hasKey, List.any_append, rowOf]
      simp only [hp, Bool.not_eq_true] at hk
      simp [hp, hk, hrow]
  · simp only [Bool.not_eq_true] at hp
    simp [hp]

theorem loadLoop_table (rs : List DailyRecord) :
    ∀ (t : List StoredRow) (tc i s : ℕ), (loadLoop t tc i s rs).table = insertAll t rs := by
  induction rs with
  | nil => intro t tc i s; rfl
  | cons r rs ih =>
    intro t tc i s
    show (loadLoop t tc i s (r :: rs)).table = insertAll (insertOrIgnore t r).1 rs
    unfold loadLoop
    dsimp only
    split <;> split <;> exact ih _ _ _ _

theorem load_to_database_table (df : List DailyRecord) (t : List StoredRow) :
    (load_to_database df t).table = insertAll t df := by
  unfold load_to_database
  by_cases h : df.isEmpty = true
  · rw [if_pos h, List.isEmpty_iff.mp h]; rfl
  · rw [if_neg h, loadLoop_table]

theorem insertAll_append_ext (rs : List DailyRecord) :
    ∀ t : List StoredRow, ∃ ext, insertAll t rs = t ++ ext := by
  induction rs with
  | nil => intro t; exact ⟨[], by simp [insertAll]⟩
  | cons r rs ih =>
    intro t
    rcases insertOrIgnore_fst_append t r with ⟨e1, h1⟩
    rcases ih (insertOrIgnore t r).1 with ⟨e2, h2⟩
    exact ⟨e1 ++ e2, by rw [insertAll, h2, h1, List.append_assoc]⟩

theorem insertAll_not_changed (rs : List DailyRecord) :
    ∀ (t : List StoredRow), ∀ r ∈ rs, (insertOrIgnore (insertAll t rs) r).2 = false := by
  induction rs with
  | nil => intro t r hr; cases hr
  | cons r0 rs ih =>
    intro t r hr
    rcases List.mem_cons.mp hr with rfl | hr2
    · rcases insertAll_append_ext rs (insertOrIgnore t r).1 with ⟨ext, hext⟩
      rw [insertAll, hext]
      exact not_changed_append (insertOrIgnore_self_not_changed t r) ext
    · exact ih _ r hr2

theorem insertAll_of_all_not_changed (rs : List DailyRecord) :
    ∀ (t : List StoredRow), (∀ r ∈ rs, (insertOrIgnore t r).2 = false) → insertAll t rs = t := by
  induction rs with
  | nil => intro t _; rfl
  | cons r rs ih =>
    intro t h
    have h0 := h r (List.mem_cons_self r rs)
    rw [insertAll, insertOrIgnore_fst_of_not_changed h0]
    exact ih t (fun r2 hr2 => h r2 (List.mem_cons_of_mem r hr2))

theorem runBatch_cons (df : List DailyRecord) (rest : List (List DailyRecord))
    (t : List StoredRow) : runBatch (df :: rest) t = runBatch rest (insertAll t df) := by
  rw [runBatch, load_to_database_table]

theorem runBatch_append_ext (dfs : List (List DailyRecord)) :
    ∀ t : List StoredRow, ∃ ext, runBatch dfs t = t ++ ext := by
  induction dfs with
  | nil => intro t; exact ⟨[], by simp [runBatch]⟩
  | cons df rest ih =>
    intro t
    rcases insertAll_append_ext df t with ⟨e1, h1⟩
    rcases ih (insertAll t df) with ⟨e2, h2⟩
    exact ⟨e1 ++ e2, by rw [runBatch_cons, h2, h1, List.append_assoc]⟩

theorem runBatch_not_changed (dfs : List (List DailyRecord)) :
    ∀ (t : List StoredRow), ∀ df ∈ dfs, ∀ r ∈ df,
      (insertOrIgnore (runBatch dfs t) r).2 = false := by
  induction dfs with
  | nil => intro t df hdf; cases hdf
  | cons df0 rest ih =>
    intro t df hdf r hr
    rcases List.mem_cons.mp hdf with rfl | hdf2
    · rcases runBatch_append_ext rest (insertAll t df) with ⟨ext, hext⟩
      rw [runBatch_cons, hext]
      exact not_changed_append (insertAll_not_changed df t r hr) ext
    · rw [runBatch_cons]
      exact ih (insertAll t df0) df hdf2 r hr

theorem recKeyEq_changed_eq {r r2 : DailyRecord} (h : recKeyEq r r2) (t : List StoredRow) :
    (insertOrIgnore t r).2 = (insertOrIgnore t r2).2 := by
  obtain ⟨hs, hd, ho, hh, hl, hc⟩ := h
  rw [insertOrIgnore_snd, insertOrIgnore_snd]
  have hp : pricesPresent r = pricesPresent r2 := by
    simp only [pricesPresent, ho, hh, hl, hc]
  rw [hp, hs, hd]

theorem forall₂_mem_right {α β : Type} {R : α → β → Prop} {l : List α} {l2 : List β}
    (h : List.Forall₂ R l l2) {b : β} (hb : b ∈ l2) : ∃ a ∈ l, R a b := by
  induction h with
  | nil => cases hb
  | cons hr _ ih =>
    rcases List.mem_cons.mp hb with rfl | hb2
    · exact ⟨_, List.mem_cons_self _ _, hr⟩
    · rcases ih hb2 with ⟨a, ha, hab⟩
      exact ⟨a, List.mem_cons_of_mem _ ha, hab⟩

theorem mem_keys_iff (t : List StoredRow) (s d : String) :
    (s, d) ∈ t.map keyOf ↔ hasKey t s d = true := by
  simp only [hasKey, keyOf, List.any_eq_true, List.mem_map, Bool.and_eq_true, beq_iff_eq,
    Prod.ext_iff]

theorem keysNodup_insertOrIgnore (t : List StoredRow) (r : DailyRecord) (h : keysNodup t) :
    keysNodup (insertOrIgnore t r).1 := by
  rw [insertOrIgnore_fst]
  by_cases hc : (pricesPresent r && !hasKey t r.symbol r.date) = true
  · rw [if_pos hc]
    have hk : hasKey t r.symbol r.date = false := by
      have h2 := ((Bool.and_eq_true _ _).mp hc).2
      cases hcase : hasKey t r.symbol r.date
      · rfl
      · rw [hcase] at h2; simp at h2
    unfold keysNodup at h ⊢
    rw [List.map_append, List.nodup_append]
    refine ⟨h, List.nodup_singleton _, ?_⟩
    intro a ha hb
    rw [List.map_singleton, List.mem_singleton] at hb
    subst hb
    have hmem : (r.symbol, r.date) ∈ t.map keyOf := by
      simpa [keyOf, rowOf] using ha
    rw [mem_keys_iff, hk] at hmem
    cases hmem
  · rw [if_neg hc]; exact h

theorem keysNodup_insertAll (rs : List DailyRecord) :
    ∀ t : List StoredRow, keysNodup t → keysNodup (insertAll t rs) := by
  induction rs with
  | nil => intro t h; exact h
  | cons r rs ih =>
    intro t h
    exact ih _ (keysNodup_insertOrIgnore t r h)

theorem keysNodup_runBatch (dfs : List (List DailyRecord)) :
    ∀ t : List StoredRow, keysNodup t → keysNodup (runBatch dfs t) := by
  induction dfs with
  | nil => intro t h; exact h
  | cons df rest ih =>
    intro t h
    rw [runBatch_cons]
    exact ih _ (keysNodup_insertAll df t h)

theorem mem_runBatch (dfs : List (List DailyRecord)) (t : List StoredRow) {row : StoredRow}
    (h : row ∈ t) : row ∈ runBatch dfs t := by
  rcases runBatch_append_ext dfs t with ⟨ext, he⟩
  rw [he]
  exact List.mem_append_left _ h

theorem runBatch_fixed (dfs : List (List DailyRecord)) :
    ∀ (t : List StoredRow), (∀ df ∈ dfs, ∀ r ∈ df, (insertOrIgnore t r).2 = false) →
      runBatch dfs t = t := by
  induction dfs with
  | nil => intro t _; rfl
  | cons df rest ih =>
    intro t h
    have h0 : insertAll t df = t :=
      insertAll_of_all_not_changed df t (h df (List.mem_cons_self df rest))
    rw [runBatch_cons, h0]
    exact ih t (fun df2 hdf2 => h df2 (List.mem_cons_of_mem df hdf2))

/-! ### Lemmas about the transformer -/

theorem length_filter_add {α : Type} (l : List α) (p : α → Bool) :
    (l.filter p).length + (l.filter (fun a => !p a)).length = l.length := by
  induction l with
  | nil => rfl
  | cons a l ih => by_cases h : p a = true <;> simp [List.filter_cons, h] <;> omega

theorem pricesNumeric_of_validates {e : RawEntry} (h : validates e = true) :
    pricesNumeric e = true := by
  unfold validates at h
  unfold pricesNumeric
  simp only [Bool.and_eq_true] at h ⊢
  exact h.1

theorem pricesPresent_mkRecord (symbol ts d : String) (e : RawEntry) :
    pricesPresent (mkRecord symbol ts d e) = pricesNumeric e := rfl

theorem rawPresent_of_floatCoerce {v : Option RawVal} (h : (floatCoerce v).isSome = true) :
    v.isSome = true := by
  cases v with
  | none => simp [floatCoerce] at h
  | some rv => rfl

theorem intCoerce_none_of_junk {v : Option RawVal} (h1 : v.isSome = true)
    (h2 : floatCoerce v = none) : intCoerce v = none := by
  cases v with
  | none => simp at h1
  | some rv =>
    cases rv with
    | num q => simp [floatCoerce] at h2
    | junk => rfl

theorem presentCols_singleton (d : String) (e : RawEntry) :
    presentCols [(d, e)] = entryFields e := by
  show [] ++ (entryFields e).filter (fun i => !(List.contains [] i)) = entryFields e
  rw [List.nil_append, List.filter_eq_self.mpr]
  intro a _
  rfl

theorem transformExc_ok_some {raw : RawPayload} {symbol : String} {v : Bool} {ts : String}
    {recs : List DailyRecord} (h : transformExc raw symbol v ts = Except.ok (some recs)) :
    ∃ l : List DailyRecord, recs = l.filter pricesPresent := by
  unfold transformExc at h
  cases hts : raw.timeSeries with
  | none =>
    rw [hts] at h
    injection h with h2
    cases h2
  | some entries =>
    rw [hts] at h
    dsimp only at h
    split at h
    · split at h
      · injection h with h2; cases h2
      · split at h
        · exact Except.noConfusion h
        · split at h
          · exact Except.noConfusion h
          · injection h with h2
            injection h2 with h3
            exact ⟨_, h3.symm⟩
    · split at h
      · exact Except.noConfusion h
      · split at h
        · exact Except.noConfusion h
        · split at h
          · exact Except.noConfusion h
          · injection h with h2
            injection h2 with h3
            exact ⟨_, h3.symm⟩

theorem transform_of_ok {raw : RawPayload} {symbol : String} {v : Bool} {ts : String}
    {r : Option (List DailyRecord)} (h : transformExc raw symbol v ts = Except.ok r) :
    transform_stock_data raw symbol v ts = r := by
  unfold transform_stock_data
  rw [h]

theorem transform_of_error {raw : RawPayload} {symbol : String} {v : Bool} {ts : String}
    {e : PyErr} (h : transformExc raw symbol v ts = Except.error e) :
    transform_stock_data raw symbol v ts = none := by
  unfold transform_stock_data
  rw [h]

theorem transform_validate_count (entries : List (String × RawEntry)) (symbol ts : String)
    (hne : entries.filter (fun p => validates p.2) ≠ [])
    (hdates : ∀ p ∈ entries, validates p.2 = true → dateParses p.1 = true) :
    transform_stock_data ⟨some entries⟩ symbol true ts =
      some ((entries.filter (fun p => validates p.2)).map
        (fun p => mkRecord symbol ts p.1 p.2)) := by
  have hc1 : (entries.filter (fun p => validates p.2)).isEmpty = false := by
    cases hcase : (entries.filter (fun p => validates p.2)).isEmpty
    · rfl
    · exact absurd (List.isEmpty_iff.mp hcase) hne
  have hc2 : (entries.filter (fun p => validates p.2)).any (fun p => !dateParses p.1) = false := by
    cases hcase : (entries.filter (fun p => validates p.2)).any (fun p => !dateParses p.1)
    · rfl
    · exfalso
      rcases List.any_eq_true.mp hcase with ⟨p, hp, hnd⟩
      have hval := List.of_mem_filter hp
      have hd := hdates p (List.mem_of_mem_filter hp) hval
      rw [hd] at hnd
      simp at hnd
  have hc3 : (entries.filter (fun p => validates p.2)).any
      (fun p => nonIntegralNumeric p.2.rawVolume) = false := by
    cases hcase : (entries.filter (fun p => validates p.2)).any
        (fun p => nonIntegralNumeric p.2.rawVolume)
    · rfl
    · exfalso
      rcases List.any_eq_true.mp hcase with ⟨p, hp, hni⟩
      have hval := List.of_mem_filter hp
      have hint : (intCoerce p.2.rawVolume).isSome = true := by
        have h5 : validates p.2 = true := hval
        unfold validates at h5
        simp only [Bool.and_eq_true] at h5
        exact h5.2
      unfold nonIntegralNumeric at hni
      rw [hint] at hni
      simp at hni
  have hfilter : ((entries.filter (fun p => validates p.2)).map
      (fun p => mkRecord symbol ts p.1 p.2)).filter pricesPresent =
      (entries.filter (fun p => validates p.2)).map (fun p => mkRecord symbol ts p.1 p.2) := by
    rw [List.filter_eq_self]
    intro rec hrec
    rcases List.mem_map.mp hrec with ⟨p, hp, hrec2⟩
    rw [← hrec2, pricesPresent_mkRecord]
    have hval := List.of_mem_filter hp
    exact pricesNumeric_of_validates hval
  apply transform_of_ok
  unfold transformExc
  dsimp only
  simp [hc1, hc2, hc3, hfilter]

/-! ### Claim theorems -/

/-- C1 (code divergence): the claim states that a record whose open price
is zero must end up with a null derived field, never a stored infinity.
The code violates this: for the payload whose single entry has open 0 and
close 105, the pipeline stores a row whose `daily_change_percentage` is
positive infinity (pandas evaluates `(105 - 0)/0 * 100` to `+inf`, `round`
preserves it, `dropna` does not drop it — open 0 is not NaN — and SQLite
stores the float `inf` as a non-null REAL). -/
theorem zero_open_divergence :
    (load_to_database ((transform_stock_data zeroOpenPayload "AAPL" true ts0).getD []) []).table =
      [⟨"AAPL", "2024-01-05", 0, 105, 0, 105, some 1000, DVal.posInf, ts0⟩] ∧
    DVal.posInf ≠ DVal.null := by decide

/-- C2 (code divergence): the claim states that `load` reports
`inserted` = rows newly created and `skipped` = rows whose key already
existed. The code classifies each row by `conn.total_changes > 0`, a
counter cumulative over the connection, so once one row has been inserted
every later duplicate is also counted as inserted: loading
`[recNew, recDup]` into a table that already holds `recDup`'s key reports
inserted = 2 and skipped = 0, although only one row was created and one
key already existed. -/
theorem load_count_divergence :
    (load_to_database [recNew, recDup] [rowOld]).inserted = 2 ∧
    (load_to_database [recNew, recDup] [rowOld]).skipped = 0 ∧
    (load_to_database [recNew, recDup] [rowOld]).table.length = 2 ∧
    hasKey [rowOld] recDup.symbol recDup.date = true := by decide

/-- C3: running the full batch a second time against the same provider
responses (the rebuilt records may differ only in extraction timestamp,
captured by `recKeyEq`) leaves the stored table exactly as the first run
left it: every second-run insert hits an existing `(symbol, date)` key or
is ignored, and no stored row is modified. -/
theorem batch_idempotent :
    ∀ (dfs dfs' : List (List DailyRecord)) (table : List StoredRow),
      List.Forall₂ (List.Forall₂ recKeyEq) dfs dfs' →
      runBatch dfs' (runBatch dfs table) = runBatch dfs table := by
  intro dfs dfs' table hvv
  apply runBatch_fixed
  intro df' hdf' r' hr'
  rcases forall₂_mem_right hvv hdf' with ⟨df, hdf, hff⟩
  rcases forall₂_mem_right hff hr' with ⟨r, hr, hkey⟩
  rw [← recKeyEq_changed_eq hkey]
  exact runBatch_not_changed dfs table df hdf r hr

/-- Witness for C3 at a concrete input: a second run whose record differs
from the first run's only in extraction timestamp leaves the table
unchanged. -/
theorem batch_idempotent_witness :
    List.Forall₂ (List.Forall₂ recKeyEq) [[recNew]] [[recNew2]] ∧
    runBatch [[recNew2]] (runBatch [[recNew]] [rowOld]) = runBatch [[recNew]] [rowOld] := by
  have hf : List.Forall₂ (List.Forall₂ recKeyEq) [[recNew]] [[recNew2]] :=
    List.Forall₂.cons
      (List.Forall₂.cons ⟨rfl, rfl, rfl, rfl, rfl, rfl⟩ List.Forall₂.nil) List.Forall₂.nil
  exact ⟨hf, batch_idempotent _ _ _ hf⟩

/-- C4: after any sequence of load operations on a table whose keys are
distinct, the keys are still distinct — no two rows share a
`(symbol, date)` pair — and every pre-existing row is still present with
all its fields unchanged (loads only append; they never overwrite). -/
theorem key_uniqueness :
    ∀ (dfs : List (List DailyRecord)) (table : List StoredRow),
      keysNodup table →
      keysNodup (runBatch dfs table) ∧ ∀ row ∈ table, row ∈ runBatch dfs table := by
  intro dfs table h
  exact ⟨keysNodup_runBatch dfs table h, fun _ hrow => mem_runBatch dfs table hrow⟩

/-- Witness for C4 at a concrete input. -/
theorem key_uniqueness_witness :
    keysNodup [rowOld] ∧ keysNodup (runBatch [[recNew, recDup]] [rowOld]) ∧
      rowOld ∈ runBatch [[recNew, recDup]] [rowOld] := by
  have h : keysNodup [rowOld] := by unfold keysNodup; decide
  exact ⟨h, (key_uniqueness [[recNew, recDup]] [rowOld] h).1,
    (key_uniqueness [[recNew, recDup]] [rowOld] h).2 rowOld (by simp)⟩

/-- C5: with validation enabled, a schema-validation failure discards only
the failing date entry; in particular a payload of 10 date entries of
which exactly 2 have non-numeric price fields (and the other 8 are fully
valid, with parseable dates) transforms to exactly 8 records. -/
theorem validation_drop_semantics :
    ∀ (entries : List (String × RawEntry)) (symbol ts : String),
      entries.length = 10 →
      (entries.filter (fun p => !pricesNumeric p.2)).length = 2 →
      (∀ p ∈ entries, pricesNumeric p.2 = true → validates p.2 = true ∧ dateParses p.1 = true) →
      ∃ recs, transform_stock_data ⟨some entries⟩ symbol true ts = some recs ∧
        recs.length = 8 := by
  intro entries symbol ts h10 h2 hgood
  have hpoint : ∀ p ∈ entries, validates p.2 = pricesNumeric p.2 := by
    intro p hp
    cases hn : pricesNumeric p.2
    · cases hv : validates p.2
      · rfl
      · have := pricesNumeric_of_validates hv
        rw [hn] at this
        cases this
    · rw [(hgood p hp hn).1]
  have hfeq : entries.filter (fun p => validates p.2) =
      entries.filter (fun p => pricesNumeric p.2) := List.filter_congr hpoint
  have hlen : (entries.filter (fun p => pricesNumeric p.2)).length = 8 := by
    have hsum := length_filter_add entries (fun p => pricesNumeric p.2)
    have h2b : (entries.filter (fun a => !(fun p => pricesNumeric p.2) a)).length = 2 := h2
    rw [h10, h2b] at hsum
    omega
  have hne : entries.filter (fun p => validates p.2) ≠ [] := by
    rw [hfeq]
    intro hnil
    rw [hnil] at hlen
    cases hlen
  have hdates : ∀ p ∈ entries, validates p.2 = true → dateParses p.1 = true := by
    intro p hp hv
    exact (hgood p hp (pricesNumeric_of_validates hv)).2
  refine ⟨_, transform_validate_count entries symbol ts hne hdates, ?_⟩
  rw [List.length_map, hfeq, hlen]

/-- Witness for C5 at a concrete ten-entry payload. -/
theorem validation_drop_semantics_witness :
    entries10.length = 10 ∧
    (entries10.filter (fun p => !pricesNumeric p.2)).length = 2 ∧
    ∃ recs, transform_stock_data ⟨some entries10⟩ "AAPL" true ts0 = some recs ∧
      recs.length = 8 :=
  ⟨by decide, by decide,
    validation_drop_semantics entries10 "AAPL" ts0 (by decide) (by decide) (by decide)⟩

/-- C8: every record surviving transformation has all four price fields
non-null (the final `dropna` guarantees it on both the validated and the
unvalidated path), and the table side enforces the same: an insert only
ever creates a row when all four NOT NULL price columns are present
(otherwise `INSERT OR IGNORE` suppresses the row), so stored rows carry
plain non-null prices by construction. -/
theorem required_field_completeness :
    ∀ (raw : RawPayload) (symbol : String) (v : Bool) (ts : String) (recs : List DailyRecord),
      transform_stock_data raw symbol v ts = some recs →
      (∀ r ∈ recs, pricesPresent r = true) ∧
      (∀ (t : List StoredRow) (r : DailyRecord),
        (insertOrIgnore t r).2 = true → pricesPresent r = true) := by
  intro raw symbol v ts recs h
  constructor
  · intro r hr
    unfold transform_stock_data at h
    cases hexc : transformExc raw symbol v ts with
    | error e => rw [hexc] at h; cases h
    | ok r0 =>
      rw [hexc] at h
      cases r0 with
      | none => cases h
      | some recs0 =>
        injection h with h2
        rw [h2] at hexc
        rcases transformExc_ok_some hexc with ⟨cands, hc⟩
        rw [hc] at hr
        exact List.of_mem_filter hr
  · intro t r hch
    rw [insertOrIgnore_snd] at hch
    exact ((Bool.and_eq_true _ _).mp hch).1

/-- Witness for C8 at a concrete input. -/
theorem required_field_completeness_witness :
    transform_stock_data goodPayload "AAPL" true ts0 = some [goodRec] ∧
    pricesPresent goodRec = true := by
  have h : transform_stock_data goodPayload "AAPL" true ts0 = some [goodRec] := by decide
  exact ⟨h, (required_field_completeness goodPayload "AAPL" true ts0 [goodRec] h).1 goodRec
    (by simp)⟩

/-- C9 (counterexample): in the validation-enabled path an entry with
valid prices but an uncoercible volume does NOT produce a record with a
null volume — pydantic rejects the whole entry, so the transform yields no
record at all (here: `none`, since it was the only entry). -/
theorem validated_bad_volume_dropped :
    transform_stock_data badVolPayload "AAPL" true ts0 = none ∧
    pricesNumeric badVolEntry = true ∧ intCoerce badVolEntry.rawVolume = none := by decide

/-- C9 (amended): only with validation disabled does an entry whose prices
are valid but whose volume field is present and non-numeric survive as a
record: `to_numeric(errors="coerce")` turns the cell into NaN,
`astype("Int64")` turns NaN into the null marker (it raises only on
non-integral numeric cells, and the positional rename raises only when a
label is absent from the whole payload — both excluded here), the record
passes the final `dropna` and so qualifies for storage, while the
validation-enabled path discards the same entry entirely. -/
theorem bad_volume_nullable_without_validation :
    ∀ (d symbol ts : String) (e : RawEntry),
      pricesNumeric e = true →
      e.rawVolume.isSome = true →
      floatCoerce e.rawVolume = none →
      dateParses d = true →
      transform_stock_data ⟨some [(d, e)]⟩ symbol false ts =
        some [recordPositional [0, 1, 2, 3, 4] symbol ts d e] ∧
      (recordPositional [0, 1, 2, 3, 4] symbol ts d e).volume = none ∧
      pricesPresent (recordPositional [0, 1, 2, 3, 4] symbol ts d e) = true ∧
      transform_stock_data ⟨some [(d, e)]⟩ symbol true ts = none := by
  intro d symbol ts e hp hvs hvf hd
  have hp4 := hp
  unfold pricesNumeric at hp4
  simp only [Bool.and_eq_true] at hp4
  obtain ⟨⟨⟨ho, hh⟩, hl⟩, hc⟩ := hp4
  have hs0 : (slot 0 e).isSome = true := rawPresent_of_floatCoerce ho
  have hs1 : (slot 1 e).isSome = true := rawPresent_of_floatCoerce hh
  have hs2 : (slot 2 e).isSome = true := rawPresent_of_floatCoerce hl
  have hs3 : (slot 3 e).isSome = true := rawPresent_of_floatCoerce hc
  have hs4 : (slot 4 e).isSome = true := hvs
  have hef : entryFields e = [0, 1, 2, 3, 4] := by
    simp [entryFields, List.filter_cons, hs0, hs1, hs2, hs3, hs4]
  have hcols : presentCols [(d, e)] = [0, 1, 2, 3, 4] :=
    (presentCols_singleton d e).trans hef
  have hvolI : intCoerce e.rawVolume = none := intCoerce_none_of_junk hvs hvf
  have hvol : (recordPositional [0, 1, 2, 3, 4] symbol ts d e).volume = none := by
    simp [recordPositional, slot, List.getD, hvolI]
  have hpp : pricesPresent (recordPositional [0, 1, 2, 3, 4] symbol ts d e) = true := by
    simp [recordPositional, pricesPresent, slot, List.getD, ho, hh, hl, hc]
  refine ⟨?_, hvol, hpp, ?_⟩
  · apply transform_of_ok
    unfold transformExc
    dsimp only
    simp only [hcols]
    simp [hd, nonIntegralNumeric, slot, List.getD, hvf, hpp]
  · have hval : validates e = false := by
      unfold validates
      rw [hvolI]
      simp
    apply transform_of_ok
    unfold transformExc
    dsimp only
    simp [List.filter_cons, hval]

/-- Witness for C9's amended statement at a concrete entry whose volume
field is present but non-numeric. -/
theorem bad_volume_nullable_without_validation_witness :
    pricesNumeric badVolEntry = true ∧ badVolEntry.rawVolume.isSome = true ∧
    floatCoerce badVolEntry.rawVolume = none ∧ dateParses "2024-01-05" = true ∧
    transform_stock_data ⟨some [("2024-01-05", badVolEntry)]⟩ "AAPL" false ts0 =
      some [recordPositional [0, 1, 2, 3, 4] "AAPL" ts0 "2024-01-05" badVolEntry] ∧
    (recordPositional [0, 1, 2, 3, 4] "AAPL" ts0 "2024-01-05" badVolEntry).volume = none := by
  have h := bad_volume_nullable_without_validation "2024-01-05" "AAPL" ts0 badVolEntry
    (by decide) (by decide) (by decide) (by decide)
  exact ⟨by decide, by decide, by decide, by decide, h.1, h.2.1⟩

/-- C10: the transform is total at its public boundary — whenever its body
raises an internal exception the public function returns the failure value
`none`, and whenever the body completes the public function returns
exactly the body's value (records or `None`); no exception propagates to
the caller. -/
theorem transform_total_at_boundary :
    ∀ (raw : RawPayload) (symbol : String) (v : Bool) (ts : String),
      (∀ e : PyErr, transformExc raw symbol v ts = Except.error e →
        transform_stock_data raw symbol v ts = none) ∧
      (∀ r : Option (List DailyRecord), transformExc raw symbol v ts = Except.ok r →
        transform_stock_data raw symbol v ts = r) :=
  fun _ _ _ _ =>
    ⟨fun _ he => transform_of_error he, fun _ hr => transform_of_ok hr⟩

/-- Witness for C10 at a concrete input whose body does raise (an
unparseable date makes the modelled `pd.to_datetime` throw): the public
transform converts it to `none`. -/
theorem transform_total_at_boundary_witness :
    transformExc badDatePayload "AAPL" true ts0 = Except.error PyErr.valueError ∧
    transform_stock_data badDatePayload "AAPL" true ts0 = none := by
  have h : transformExc badDatePayload "AAPL" true ts0 = Except.error PyErr.valueError := rfl
  exact ⟨h, (transform_total_at_boundary badDatePayload "AAPL" true ts0).1 PyErr.valueError h⟩

theorem extractCall_mem_processSymbol (env : Env) (s : String) :
    Ev.extractCall s ∈ processSymbol env s := by
  unfold processSymbol
  cases env.extract s with
  | success raw =>
    cases htr : transform_stock_data raw s true (env.now s) with
    | none => simp [htr]
    | some recs => cases recs <;> simp [htr]
  | failure => simp
  | raised => simp

/-- C6: the orchestrator's stage gating and failure isolation — if a
symbol's extraction does not succeed (failure value or a raised
exception), neither Transform nor Load is invoked for it; if its
transformation yields no records (`None` or an empty frame), Load is not
invoked; and regardless of any symbol's outcome, every symbol of the batch
is still processed (its extraction is reached), because every per-symbol
error is absorbed by a `continue` or by the loop's `except` clause. -/
theorem orchestrator_stage_gating :
    ∀ (env : Env) (s : String),
      ((∀ raw, env.extract s ≠ ExtractOutcome.success raw) →
        Ev.transformCall s ∉ processSymbol env s ∧ Ev.loadCall s ∉ processSymbol env s) ∧
      (∀ raw, env.extract s = ExtractOutcome.success raw →
        (transform_stock_data raw s true (env.now s) = none ∨
          transform_stock_data raw s true (env.now s) = some []) →
        Ev.loadCall s ∉ processSymbol env s) ∧
      (∀ symbols : List String, s ∈ symbols →
        Ev.extractCall s ∈ run_etl_pipeline env symbols) := by
  intro env s
  refine ⟨?_, ?_, ?_⟩
  · intro hne
    cases hext : env.extract s with
    | success raw => exact absurd hext (hne raw)
    | failure => simp [processSymbol, hext]
    | raised => simp [processSymbol, hext]
  · intro raw hext hc
    rcases hc with htr | htr <;> simp [processSymbol, hext, htr]
  · intro symbols hs
    induction symbols with
    | nil => cases hs
    | cons s0 rest ih =>
      rw [run_etl_pipeline]
      rcases List.mem_cons.mp hs with rfl | hs2
      · exact List.mem_append_left _ (extractCall_mem_processSymbol env s)
      · exact List.mem_append_right _ (ih hs2)

/-- Witness for C6 at a concrete environment in which extraction fails. -/
theorem orchestrator_stage_gating_witness :
    Ev.transformCall "AAPL" ∉ processSymbol envFail "AAPL" ∧
    Ev.extractCall "GOOG" ∈ run_etl_pipeline envFail ["AAPL", "GOOG"] := by
  have hne : ∀ raw, envFail.extract "AAPL" ≠ ExtractOutcome.success raw := by
    intro raw h
    exact ExtractOutcome.noConfusion h
  exact ⟨((orchestrator_stage_gating envFail "AAPL").1 hne).1,
    (orchestrator_stage_gating envFail "GOOG").2.2 ["AAPL", "GOOG"] (by simp)⟩

/-- C7 (counterexample): the claim says the pacing delay runs between
every pair of consecutively processed symbols regardless of outcome. It
does not: with two symbols both skipped at extraction, the run's trace
contains no sleep at all — `time.sleep(12)` sits after the Load step
inside the `try`, so every `continue` path bypasses it. -/
theorem no_sleep_between_skipped_symbols :
    run_etl_pipeline envFail ["AAPL", "GOOG"] =
      [Ev.extractCall "AAPL", Ev.extractCall "GOOG"] ∧
    Ev.sleepCall ∉ run_etl_pipeline envFail ["AAPL", "GOOG"] := by decide

/-- C7 (amended): the pacing delay runs exactly after a symbol that
completes all three stages — a successful symbol's trace ends with the
sleep, while a symbol skipped at extraction or transformation (or aborted
by an exception) produces no sleep, so the next symbol starts
immediately. -/
theorem sleep_only_after_success :
    ∀ (env : Env) (s : String),
      (symbolSucceeds env s →
        processSymbol env s =
          [Ev.extractCall s, Ev.transformCall s, Ev.loadCall s, Ev.sleepCall]) ∧
      (¬ symbolSucceeds env s → Ev.sleepCall ∉ processSymbol env s) := by
  intro env s
  constructor
  · rintro ⟨raw, recs, hext, htr, hne⟩
    cases recs with
    | nil => exact absurd rfl hne
    | cons r rs => simp [processSymbol, hext, htr]
  · intro hns
    unfold processSymbol
    cases hext : env.extract s with
    | failure => simp
    | raised => simp
    | success raw =>
      cases htr : transform_stock_data raw s true (env.now s) with
      | none => simp [htr]
      | some recs =>
        cases recs with
        | nil => simp [htr]
        | cons r rs =>
          exact absurd ⟨raw, r :: rs, hext, htr, by simp⟩ hns

/-- Witness for C7's amended statement at a concrete successful symbol. -/
theorem sleep_only_after_success_witness :
    symbolSucceeds envOk "AAPL" ∧
    processSymbol envOk "AAPL" =
      [Ev.extractCall "AAPL", Ev.transformCall "AAPL", Ev.loadCall "AAPL", Ev.sleepCall] := by
  have hs : symbolSucceeds envOk "AAPL" :=
    ⟨goodPayload, [goodRec], rfl, by decide, by simp⟩
  exact ⟨hs, (sleep_only_after_success envOk "AAPL").1 hs⟩

end StockETL
